import Mathlib

/-!
Shallow embedding of the electron simulation (src/main.py).

The source drives each electron by its own SimPy process: the process body
(`Electron.update`) runs `calculate_forces`, `update_kinematics` and
`handle_boundaries` for that one electron and then yields a timeout of one
`TIME_STEP`.  The SimPy event queue therefore runs the electrons one after
another at each simulated timestamp, in id order, each electron mutating the
shared `env.electrons` list before the next electron's turn.  We embed one
such "round" (every electron's process body executed once, in order) as
`advance_step`.  All floating-point quantities are modelled as real numbers.
-/

namespace ESim

noncomputable section

/-- WIDTH from the configuration block (pixels). -/
def WIDTH : ℝ := 1000

/-- HEIGHT from the configuration block (pixels). -/
def HEIGHT : ℝ := 800

/-- SCALE = 1e-4 meters per pixel. -/
def SCALE : ℝ := 1 / 10 ^ 4

/-- TIME_STEP = 5e-7 seconds. -/
def TIME_STEP : ℝ := 5 / 10 ^ 7

/-- ELECTRON_MASS = 9.1093837e-31 kg. -/
def ELECTRON_MASS : ℝ := 91093837 / 10 ^ 38

/-- ELECTRON_CHARGE = -1.602e-19 C. -/
def ELECTRON_CHARGE : ℝ := -(1602 / 10 ^ 22)

/-- K_CONST = 8.99e9 N·m²/C². -/
def K_CONST : ℝ := 899 * 10 ^ 7

/-- V0 = 1e3 m/s, initial max speed. -/
def V0 : ℝ := 10 ^ 3

/-- NUM_ELECTRONS = 10. -/
def NUM_ELECTRONS : ℕ := 10

/-- The numerical floor 1e-12 used in `calculate_forces`. -/
def DIST_FLOOR : ℝ := 1 / 10 ^ 12

/-- max_x = WIDTH * SCALE, computed in `handle_boundaries`. -/
def max_x : ℝ := WIDTH * SCALE

/-- max_y = HEIGHT * SCALE, computed in `handle_boundaries`. -/
def max_y : ℝ := HEIGHT * SCALE

/-- One electron's mutable state: identity, position, velocity and the
force accumulator (`force_x`, `force_y`). -/
structure Electron where
  id : ℕ
  x : ℝ
  y : ℝ
  vx : ℝ
  vy : ℝ
  force_x : ℝ
  force_y : ℝ

/-- math.hypot: Euclidean norm of a 2-vector. -/
def hypot (a b : ℝ) : ℝ := Real.sqrt (a ^ 2 + b ^ 2)

/-- The body of the `for other in self.env.electrons` loop in
`Electron.calculate_forces`, as a fold step over the accumulated
(force_x, force_y) pair. -/
def forceStep (e : Electron) (acc : ℝ × ℝ) (other : Electron) : ℝ × ℝ :=
  if other.id ≠ e.id then
    let dx := e.x - other.x
    let dy := e.y - other.y
    let dist := hypot dx dy
    if dist < DIST_FLOOR then acc
    else
      let force_mag := K_CONST * ELECTRON_CHARGE ^ 2 / dist ^ 2
      (acc.1 + force_mag * (dx / dist), acc.2 + force_mag * (dy / dist))
  else acc

/-- Electron.calculate_forces: reset both accumulators to zero, then sum the
contribution of every other electron in `env`.  Only `e`'s own accumulator
fields are written. -/
def calculate_forces (env : List Electron) (e : Electron) : Electron :=
  let f := env.foldl (forceStep e) (0, 0)
  { e with force_x := f.1, force_y := f.2 }

/-- Electron.update_kinematics: velocity first (`v += (f/m)*dt`), then
position from the already-updated velocity (`p += v*dt`). -/
def update_kinematics (e : Electron) : Electron :=
  let vx := e.vx + e.force_x / ELECTRON_MASS * TIME_STEP
  let vy := e.vy + e.force_y / ELECTRON_MASS * TIME_STEP
  { e with vx := vx, vy := vy,
           x := e.x + vx * TIME_STEP,
           y := e.y + vy * TIME_STEP }

/-- The x-axis `if/elif` block of Electron.handle_boundaries: clamp the
coordinate and flip the velocity component to the outward-pointing
absolute value. -/
def clampX (e : Electron) : Electron :=
  if e.x ≤ 0 then { e with x := 0, vx := |e.vx| }
  else if e.x ≥ max_x then { e with x := max_x, vx := -|e.vx| }
  else e

/-- The y-axis `if/elif` block of Electron.handle_boundaries. -/
def clampY (e : Electron) : Electron :=
  if e.y ≤ 0 then { e with y := 0, vy := |e.vy| }
  else if e.y ≥ max_y then { e with y := max_y, vy := -|e.vy| }
  else e

/-- Electron.handle_boundaries: the x `if/elif` block runs first, then the
y `if/elif` block runs on its result. -/
def handle_boundaries (e : Electron) : Electron :=
  clampY (clampX e)

/-- One iteration of the body of `Electron.update` for one electron:
forces, then kinematics, then boundaries, reading the shared list `env`. -/
def update_body (env : List Electron) (e : Electron) : Electron :=
  handle_boundaries (update_kinematics (calculate_forces env e))

/-- The SimPy event queue at one timestamp: electrons run one after another
in id order.  `done` holds the electrons already advanced this round; the
electron at the head of `pending` runs its process body against the current
shared list `done ++ pending`, and its result is appended to `done`. -/
def run_round : List Electron → List Electron → List Electron
  | done, [] => done
  | done, e :: pending =>
      run_round (done ++ [update_body (done ++ e :: pending) e]) pending

/-- Advance the whole system by one time step: every electron's process body
runs once, sequentially, over the shared mutable list. -/
def advance_step (es : List Electron) : List Electron := run_round [] es

/-- The spec's §4.2 semantics for one step, stated from the spec's words:
first compute every particle's force from a single start-of-step snapshot,
and only then integrate and reflect each particle. -/
def advance_step_snapshot (es : List Electron) : List Electron :=
  (es.map (calculate_forces es)).map fun e =>
    handle_boundaries (update_kinematics e)

/-- ElectronSim.get_positions. -/
def get_positions (es : List Electron) : List (ℝ × ℝ) :=
  es.map fun e => (e.x, e.y)

/-- ElectronSim.__init__: electron `i` takes its four `random.uniform`
draws, in order, from the stream `u`: `x = u(4i) * SCALE`,
`y = u(4i+1) * SCALE`, `vx = u(4i+2)`, `vy = u(4i+3)`.  A fixed seed fixes
the stream. -/
def init_electrons (u : ℕ → ℝ) : List Electron :=
  (List.range NUM_ELECTRONS).map fun i =>
    { id := i, x := u (4 * i) * SCALE, y := u (4 * i + 1) * SCALE,
      vx := u (4 * i + 2), vy := u (4 * i + 3),
      force_x := 0, force_y := 0 }

end

/-! ### Helper lemmas -/

lemma hypot_zero_zero : hypot 0 0 = 0 := by
  unfold hypot
  rw [show (0:ℝ) ^ 2 + (0:ℝ) ^ 2 = 0 by norm_num]
  exact Real.sqrt_zero

lemma hypot_axis (a : ℝ) : hypot a 0 = |a| := by
  unfold hypot
  rw [show a ^ 2 + (0:ℝ) ^ 2 = a ^ 2 by ring]
  exact Real.sqrt_sq_eq_abs a

lemma forceStep_self (e : Electron) (acc : ℝ × ℝ) : forceStep e acc e = acc := by
  simp [forceStep]

lemma max_x_pos : (0:ℝ) < max_x := by norm_num [max_x, WIDTH, SCALE]

lemma max_y_pos : (0:ℝ) < max_y := by norm_num [max_y, HEIGHT, SCALE]

lemma clampX_x_bounds (e : Electron) :
    0 ≤ (clampX e).x ∧ (clampX e).x ≤ max_x := by
  unfold clampX
  split_ifs with h1 h2
  · exact ⟨le_refl 0, le_of_lt max_x_pos⟩
  · exact ⟨le_of_lt max_x_pos, le_refl max_x⟩
  · exact ⟨le_of_lt (lt_of_not_le h1), le_of_lt (lt_of_not_le h2)⟩

lemma clampX_y (e : Electron) : (clampX e).y = e.y := by
  unfold clampX; split_ifs <;> rfl

lemma clampX_vy (e : Electron) : (clampX e).vy = e.vy := by
  unfold clampX; split_ifs <;> rfl

lemma clampY_y_bounds (e : Electron) :
    0 ≤ (clampY e).y ∧ (clampY e).y ≤ max_y := by
  unfold clampY
  split_ifs with h1 h2
  · exact ⟨le_refl 0, le_of_lt max_y_pos⟩
  · exact ⟨le_of_lt max_y_pos, le_refl max_y⟩
  · exact ⟨le_of_lt (lt_of_not_le h1), le_of_lt (lt_of_not_le h2)⟩

lemma clampY_x (e : Electron) : (clampY e).x = e.x := by
  unfold clampY; split_ifs <;> rfl

lemma clampY_vx (e : Electron) : (clampY e).vx = e.vx := by
  unfold clampY; split_ifs <;> rfl

lemma handle_boundaries_bounds (e : Electron) :
    0 ≤ (handle_boundaries e).x ∧ (handle_boundaries e).x ≤ max_x ∧
    0 ≤ (handle_boundaries e).y ∧ (handle_boundaries e).y ≤ max_y := by
  unfold handle_boundaries
  refine ⟨?_, ?_, (clampY_y_bounds _).1, (clampY_y_bounds _).2⟩
  · rw [clampY_x]; exact (clampX_x_bounds e).1
  · rw [clampY_x]; exact (clampX_x_bounds e).2

lemma forceStep_skip (e : Electron) (acc : ℝ × ℝ) (other : Electron)
    (h : hypot (e.x - other.x) (e.y - other.y) < DIST_FLOOR) :
    forceStep e acc other = acc := by
  simp only [forceStep]
  split_ifs with h1 <;> rfl

lemma forceStep_go (e : Electron) (acc : ℝ × ℝ) (other : Electron)
    (hid : other.id ≠ e.id)
    (hnlt : ¬ hypot (e.x - other.x) (e.y - other.y) < DIST_FLOOR) :
    forceStep e acc other =
      (acc.1 + K_CONST * ELECTRON_CHARGE ^ 2 /
          hypot (e.x - other.x) (e.y - other.y) ^ 2 *
          ((e.x - other.x) / hypot (e.x - other.x) (e.y - other.y)),
       acc.2 + K_CONST * ELECTRON_CHARGE ^ 2 /
          hypot (e.x - other.x) (e.y - other.y) ^ 2 *
          ((e.y - other.y) / hypot (e.x - other.x) (e.y - other.y))) := by
  simp only [forceStep]
  rw [if_pos hid, if_neg hnlt]

lemma clamp_vx_interior (e : Electron) (hx0 : 0 < e.x) (hx1 : e.x < max_x) :
    (handle_boundaries e).vx = e.vx := by
  unfold handle_boundaries
  rw [clampY_vx]
  unfold clampX
  rw [if_neg (not_le.mpr hx0), if_neg (not_le.mpr hx1)]

lemma mem_run_round (pending : List Electron) :
    ∀ (done : List Electron) (e : Electron), e ∈ run_round done pending →
      e ∈ done ∨ ∃ env a, e = update_body env a := by
  induction pending with
  | nil => intro done e h; exact Or.inl h
  | cons a rest ih =>
      intro done e h
      rw [run_round] at h
      rcases ih _ _ h with h1 | h1
      · rcases List.mem_append.mp h1 with h2 | h2
        · exact Or.inl h2
        · exact Or.inr ⟨_, _, List.mem_singleton.mp h2⟩
      · exact Or.inr h1

/-! ### Witness inputs: concrete electrons with small rational coordinates -/

/-- A stationary electron strictly inside the arena. -/
noncomputable def wE : Electron := ⟨0, 1/100, 1/25, 0, 0, 0, 0⟩

/-! ### Claim theorems -/

/-- C2: after one `advance_step` every particle's position satisfies
`0 ≤ x ≤ max_x` and `0 ≤ y ≤ max_y`, whatever integration produced: every
electron emitted by the round went through `handle_boundaries` last. -/
theorem c2_boundary_invariant (es : List Electron) (e : Electron)
    (he : e ∈ advance_step es) :
    0 ≤ e.x ∧ e.x ≤ max_x ∧ 0 ≤ e.y ∧ e.y ≤ max_y := by
  rcases mem_run_round es [] e he with h | ⟨env, a, rfl⟩
  · exact absurd h (List.not_mem_nil e)
  · exact handle_boundaries_bounds _

/-- C3: `update_kinematics` is forward Euler with the velocity updated
first (`v += (f/m)*dt`) and the position then advanced with the
already-updated velocity (`p += v*dt`); identity and force accumulators
are untouched, and the update reads no other particle (it is a function of
`e` alone). -/
theorem c3_kinematics_euler (e : Electron) :
    (update_kinematics e).vx = e.vx + e.force_x / ELECTRON_MASS * TIME_STEP ∧
    (update_kinematics e).vy = e.vy + e.force_y / ELECTRON_MASS * TIME_STEP ∧
    (update_kinematics e).x =
      e.x + (e.vx + e.force_x / ELECTRON_MASS * TIME_STEP) * TIME_STEP ∧
    (update_kinematics e).y =
      e.y + (e.vy + e.force_y / ELECTRON_MASS * TIME_STEP) * TIME_STEP ∧
    (update_kinematics e).id = e.id ∧
    (update_kinematics e).force_x = e.force_x ∧
    (update_kinematics e).force_y = e.force_y := by
  refine ⟨rfl, rfl, rfl, rfl, rfl, rfl, rfl⟩

/-- C4: boundary handling is lossless: it leaves the absolute value of each
velocity component unchanged, hence preserves `vx² + vy²` and the kinetic
energy. -/
theorem c4_reflection_lossless (e : Electron) :
    |(handle_boundaries e).vx| = |e.vx| ∧
    |(handle_boundaries e).vy| = |e.vy| ∧
    (handle_boundaries e).vx ^ 2 + (handle_boundaries e).vy ^ 2 =
      e.vx ^ 2 + e.vy ^ 2 := by
  have hx : |(handle_boundaries e).vx| = |e.vx| := by
    unfold handle_boundaries
    rw [clampY_vx]
    unfold clampX
    split_ifs <;> simp [abs_abs, abs_neg]
  have hy : |(handle_boundaries e).vy| = |e.vy| := by
    unfold handle_boundaries
    have h2 : (clampX e).vy = e.vy := clampX_vy e
    unfold clampY
    split_ifs <;> simp [abs_abs, abs_neg, h2]
  refine ⟨hx, hy, ?_⟩
  rw [← sq_abs (handle_boundaries e).vx, ← sq_abs (handle_boundaries e).vy,
      hx, hy, sq_abs, sq_abs]

/-- C9: boundary handling is the identity on any electron strictly inside
the arena: neither position nor velocity changes. -/
theorem c9_interior_identity (e : Electron) (hx0 : 0 < e.x) (hx1 : e.x < max_x)
    (hy0 : 0 < e.y) (hy1 : e.y < max_y) :
    handle_boundaries e = e := by
  unfold handle_boundaries clampX clampY
  rw [if_neg (not_le.mpr hx0), if_neg (not_le.mpr hx1),
      if_neg (not_le.mpr hy0), if_neg (not_le.mpr hy1)]

/-- Witness for C9 at a concrete interior electron. -/
theorem c9_interior_identity_witness :
    handle_boundaries wE = wE :=
  c9_interior_identity wE (by norm_num [wE])
    (by norm_num [wE, max_x, WIDTH, SCALE])
    (by norm_num [wE])
    (by norm_num [wE, max_y, HEIGHT, SCALE])

/-- C10: `calculate_forces` writes only the force accumulators of the
electron it runs for — position, velocity and identity are unchanged — and
the accumulators are reset to zero and then summed over the environment
(the fold starts from `(0, 0)`).  It returns only the updated electron, so
every other electron's state is untouched. -/
theorem c10_forces_frame (env : List Electron) (e : Electron) :
    (calculate_forces env e).id = e.id ∧
    (calculate_forces env e).x = e.x ∧
    (calculate_forces env e).y = e.y ∧
    (calculate_forces env e).vx = e.vx ∧
    (calculate_forces env e).vy = e.vy ∧
    (calculate_forces env e).force_x = (env.foldl (forceStep e) (0, 0)).1 ∧
    (calculate_forces env e).force_y = (env.foldl (forceStep e) (0, 0)).2 :=
  ⟨rfl, rfl, rfl, rfl, rfl, rfl, rfl⟩

/-- Witness for C2: a stationary interior electron is a member of its own
one-step advance, and its position is inside the arena. -/
theorem c2_boundary_invariant_witness :
    (wE ∈ advance_step [wE]) ∧
    (0 ≤ wE.x ∧ wE.x ≤ max_x ∧ 0 ≤ wE.y ∧ wE.y ≤ max_y) := by
  have hcf : calculate_forces [wE] wE = wE := by
    simp [calculate_forces, forceStep_self, wE]
  have hk : update_kinematics wE = wE := by
    simp [update_kinematics, wE]
  have hb : handle_boundaries wE = wE := by
    norm_num [handle_boundaries, clampX, clampY, wE, max_x, max_y,
      WIDTH, HEIGHT, SCALE]
  have hmem : wE ∈ advance_step [wE] := by
    have hstep : advance_step [wE] = [update_body [wE] wE] := by
      simp [advance_step, run_round]
    rw [hstep]
    simp [update_body, hcf, hk, hb]
  exact ⟨hmem, c2_boundary_invariant [wE] wE hmem⟩

/-- C7: with population size 1 the loop in `calculate_forces` only meets the
electron itself, which the identity check skips, so the accumulated force is
exactly zero; the step then moves the electron only under its own velocity
and applies the boundary rule.  `e` here is the arbitrary state at the start
of any step, so this holds at every step. -/
theorem c7_single_particle (e : Electron) :
    (calculate_forces [e] e).force_x = 0 ∧
    (calculate_forces [e] e).force_y = 0 ∧
    advance_step [e] =
      [handle_boundaries { e with x := e.x + e.vx * TIME_STEP,
                                  y := e.y + e.vy * TIME_STEP,
                                  force_x := 0, force_y := 0 }] := by
  have hcf : calculate_forces [e] e = { e with force_x := 0, force_y := 0 } := by
    simp [calculate_forces, forceStep_self]
  have hk : update_kinematics { e with force_x := 0, force_y := 0 } =
      { e with x := e.x + e.vx * TIME_STEP, y := e.y + e.vy * TIME_STEP,
               force_x := 0, force_y := 0 } := by
    simp [update_kinematics]
  refine ⟨by rw [hcf], by rw [hcf], ?_⟩
  have hstep : advance_step [e] = [update_body [e] e] := by
    simp [advance_step, run_round]
  rw [hstep]
  simp only [update_body, hcf, hk]

/-- C8: the embedded engine is a pure function of the random draws it was
constructed from, so two engines built from identical draw streams (identical
seed) agree on every position snapshot after any number of steps. -/
theorem c8_determinism (u v : ℕ → ℝ) (n : ℕ) (h : u = v) :
    get_positions (advance_step^[n] (init_electrons u)) =
      get_positions (advance_step^[n] (init_electrons v)) := by
  rw [h]

/-- Witness for C8 at the constant-zero draw stream and zero steps. -/
theorem c8_determinism_witness :
    (fun _ : ℕ => (0:ℝ)) = (fun _ : ℕ => (0:ℝ)) ∧
    get_positions (advance_step^[0] (init_electrons fun _ => 0)) =
      get_positions (advance_step^[0] (init_electrons fun _ => 0)) :=
  ⟨rfl, c8_determinism (fun _ => 0) (fun _ => 0) 0 rfl⟩

/-- Two coincident electrons with distinct ids, for the C5 witness. -/
noncomputable def wA : Electron := ⟨0, 1/50, 1/50, 0, 0, 0, 0⟩

/-- See `wA`. -/
noncomputable def wB : Electron := ⟨1, 1/50, 1/50, 5, 7, 0, 0⟩

/-- An electron at distance 1/100 from `wE`, for the C6 witness. -/
noncomputable def wJ : Electron := ⟨1, 1/50, 1/25, 0, 0, 0, 0⟩

/-- C5: a pair whose distance is below the 1e-12 floor contributes nothing
to the force accumulator (the loop body returns the accumulator unchanged),
and in particular two electrons at the identical coordinate exert zero
mutual force that step — no division by zero is ever attempted. -/
theorem c5_singularity_skip :
    (∀ (e : Electron) (acc : ℝ × ℝ) (other : Electron),
        hypot (e.x - other.x) (e.y - other.y) < DIST_FLOOR →
        forceStep e acc other = acc) ∧
    (∀ a b : Electron, a.x = b.x → a.y = b.y →
        (calculate_forces [a, b] a).force_x = 0 ∧
        (calculate_forces [a, b] a).force_y = 0 ∧
        (calculate_forces [a, b] b).force_x = 0 ∧
        (calculate_forces [a, b] b).force_y = 0) := by
  have hskip : ∀ (e : Electron) (acc : ℝ × ℝ) (other : Electron),
      hypot (e.x - other.x) (e.y - other.y) < DIST_FLOOR →
      forceStep e acc other = acc := by
    intro e acc other h
    simp only [forceStep]
    split_ifs with h1 <;> rfl
  refine ⟨hskip, ?_⟩
  intro a b hx hy
  have h0 : hypot (a.x - b.x) (a.y - b.y) < DIST_FLOOR := by
    rw [hx, hy, sub_self, sub_self, hypot_zero_zero]
    norm_num [DIST_FLOOR]
  have h1 : hypot (b.x - a.x) (b.y - a.y) < DIST_FLOOR := by
    rw [hx, hy, sub_self, sub_self, hypot_zero_zero]
    norm_num [DIST_FLOOR]
  have hcfa : calculate_forces [a, b] a = { a with force_x := 0, force_y := 0 } := by
    unfold calculate_forces
    rw [List.foldl_cons, forceStep_self, List.foldl_cons, List.foldl_nil,
        hskip a (0, 0) b h0]
  have hcfb : calculate_forces [a, b] b = { b with force_x := 0, force_y := 0 } := by
    unfold calculate_forces
    rw [List.foldl_cons, hskip b (0, 0) a h1, List.foldl_cons, List.foldl_nil,
        forceStep_self]
  exact ⟨by rw [hcfa], by rw [hcfa], by rw [hcfb], by rw [hcfb]⟩

/-- Witness for C5: a coincident pair with distinct ids; the loop body
leaves a nonzero accumulator unchanged and the pair's mutual force is zero. -/
theorem c5_singularity_skip_witness :
    (hypot (wA.x - wB.x) (wA.y - wB.y) < DIST_FLOOR ∧
      forceStep wA (3, 4) wB = (3, 4)) ∧
    (wA.x = wB.x ∧ wA.y = wB.y ∧
      (calculate_forces [wA, wB] wA).force_x = 0 ∧
      (calculate_forces [wA, wB] wB).force_x = 0) := by
  have hd : hypot (wA.x - wB.x) (wA.y - wB.y) < DIST_FLOOR := by
    rw [show wA.x - wB.x = 0 by norm_num [wA, wB],
        show wA.y - wB.y = 0 by norm_num [wA, wB], hypot_zero_zero]
    norm_num [DIST_FLOOR]
  have hx : wA.x = wB.x := by norm_num [wA, wB]
  have hy : wA.y = wB.y := by norm_num [wA, wB]
  exact ⟨⟨hd, c5_singularity_skip.1 wA (3, 4) wB hd⟩,
         hx, hy, (c5_singularity_skip.2 wA wB hx hy).1,
         (c5_singularity_skip.2 wA wB hx hy).2.2.1⟩

/-- C6: for distinct electrons at distance at least the floor, the pairwise
Coulomb contribution obeys Newton's third law (equal magnitude, opposite
direction), its squared norm is `(K q² / r²)²`, and it points along the
vector from the other electron toward self scaled by `K q² / r²`. -/
theorem c6_newton_pairwise (i j : Electron) (hid : i.id ≠ j.id)
    (hfl : DIST_FLOOR ≤ hypot (i.x - j.x) (i.y - j.y)) :
    (forceStep i (0, 0) j).1 = -((forceStep j (0, 0) i).1) ∧
    (forceStep i (0, 0) j).2 = -((forceStep j (0, 0) i).2) ∧
    (forceStep i (0, 0) j).1 ^ 2 + (forceStep i (0, 0) j).2 ^ 2 =
      (K_CONST * ELECTRON_CHARGE ^ 2 / hypot (i.x - j.x) (i.y - j.y) ^ 2) ^ 2 ∧
    (forceStep i (0, 0) j).1 * hypot (i.x - j.x) (i.y - j.y) =
      K_CONST * ELECTRON_CHARGE ^ 2 / hypot (i.x - j.x) (i.y - j.y) ^ 2 *
        (i.x - j.x) ∧
    (forceStep i (0, 0) j).2 * hypot (i.x - j.x) (i.y - j.y) =
      K_CONST * ELECTRON_CHARGE ^ 2 / hypot (i.x - j.x) (i.y - j.y) ^ 2 *
        (i.y - j.y) := by
  have hd0 : (0:ℝ) < hypot (i.x - j.x) (i.y - j.y) :=
    lt_of_lt_of_le (by norm_num [DIST_FLOOR]) hfl
  have hdne : hypot (i.x - j.x) (i.y - j.y) ≠ 0 := ne_of_gt hd0
  have hdsym : hypot (j.x - i.x) (j.y - i.y) = hypot (i.x - j.x) (i.y - j.y) := by
    unfold hypot
    rw [show (j.x - i.x) ^ 2 = (i.x - j.x) ^ 2 by ring,
        show (j.y - i.y) ^ 2 = (i.y - j.y) ^ 2 by ring]
  have hij : forceStep i (0, 0) j =
      (K_CONST * ELECTRON_CHARGE ^ 2 / hypot (i.x - j.x) (i.y - j.y) ^ 2 *
         ((i.x - j.x) / hypot (i.x - j.x) (i.y - j.y)),
       K_CONST * ELECTRON_CHARGE ^ 2 / hypot (i.x - j.x) (i.y - j.y) ^ 2 *
         ((i.y - j.y) / hypot (i.x - j.x) (i.y - j.y))) := by
    simp only [forceStep]
    rw [if_pos (Ne.symm hid), if_neg (not_lt.mpr hfl), zero_add, zero_add]
  have hji : forceStep j (0, 0) i =
      (K_CONST * ELECTRON_CHARGE ^ 2 / hypot (i.x - j.x) (i.y - j.y) ^ 2 *
         ((j.x - i.x) / hypot (i.x - j.x) (i.y - j.y)),
       K_CONST * ELECTRON_CHARGE ^ 2 / hypot (i.x - j.x) (i.y - j.y) ^ 2 *
         ((j.y - i.y) / hypot (i.x - j.x) (i.y - j.y))) := by
    simp only [forceStep]
    rw [if_pos hid, hdsym, if_neg (not_lt.mpr hfl), zero_add, zero_add]
  have hsq : hypot (i.x - j.x) (i.y - j.y) ^ 2 =
      (i.x - j.x) ^ 2 + (i.y - j.y) ^ 2 := by
    unfold hypot
    exact Real.sq_sqrt (by positivity)
  refine ⟨?_, ?_, ?_, ?_, ?_⟩
  · rw [hij, hji]; ring
  · rw [hij, hji]; ring
  · rw [hij]
    have hexp : ∀ m d dx dy : ℝ, d ≠ 0 → d ^ 2 = dx ^ 2 + dy ^ 2 →
        (m * (dx / d)) ^ 2 + (m * (dy / d)) ^ 2 = m ^ 2 := by
      intro m d dx dy hd hdd
      field_simp
      rw [hdd]
      ring
    exact hexp _ _ _ _ hdne hsq
  · rw [hij]
    field_simp
    ring
  · rw [hij]
    field_simp
    ring

/-- Witness for C6: `wE` and `wJ` sit 1/100 apart on the x-axis. -/
theorem c6_newton_pairwise_witness :
    (wE.id ≠ wJ.id) ∧
    DIST_FLOOR ≤ hypot (wE.x - wJ.x) (wE.y - wJ.y) ∧
    (forceStep wE (0, 0) wJ).1 = -((forceStep wJ (0, 0) wE).1) := by
  have h1 : wE.id ≠ wJ.id := by norm_num [wE, wJ]
  have hh : hypot (wE.x - wJ.x) (wE.y - wJ.y) = 1 / 100 := by
    rw [show wE.x - wJ.x = -(1/100 : ℝ) by norm_num [wE, wJ],
        show wE.y - wJ.y = (0:ℝ) by norm_num [wE, wJ], hypot_axis,
        abs_neg, abs_of_pos (by norm_num : (0:ℝ) < 1/100)]
  have h2 : DIST_FLOOR ≤ hypot (wE.x - wJ.x) (wE.y - wJ.y) := by
    rw [hh]; norm_num [DIST_FLOOR]
  exact ⟨h1, h2, (c6_newton_pairwise wE wJ h1 h2).1⟩

/-- Counterexample configuration for C1: `cA` sits on top of `cB` (so the
start-of-step pair force is skipped by the floor) but moves with
`vx = 1000`. -/
noncomputable def cA : Electron := ⟨0, 1/100, 1/25, 1000, 0, 0, 0⟩

/-- See `cA`. -/
noncomputable def cB : Electron := ⟨1, 1/100, 1/25, 0, 0, 0, 0⟩

/-- `cA` after its own process body ran: zero force, advanced by
`vx * TIME_STEP = 1/2000`. -/
noncomputable def cAstep : Electron := ⟨0, 21/2000, 1/25, 1000, 0, 0, 0⟩

/-- The x-force `cB` picks up from the already-advanced `cAstep` at
distance 1/2000. -/
noncomputable def FX : ℝ :=
  K_CONST * ELECTRON_CHARGE ^ 2 / (1/2000 : ℝ) ^ 2 * (-(1/2000) / (1/2000))

/-- C1 as stated is false: the per-step result of the code does not come
from a single start-of-step snapshot.  With `cA` and `cB` coincident and
`cA` moving, the snapshot semantics gives both particles zero force, but in
the code `cA`'s process runs first, moves `cA` away, and `cB`'s force is
then computed from `cA`'s already-advanced position, giving `cB` a nonzero
velocity. -/
theorem c1_counterexample :
    advance_step [cA, cB] ≠ advance_step_snapshot [cA, cB] := by
  have hd0 : hypot (cA.x - cB.x) (cA.y - cB.y) < DIST_FLOOR := by
    rw [show cA.x - cB.x = 0 by norm_num [cA, cB],
        show cA.y - cB.y = 0 by norm_num [cA, cB], hypot_zero_zero]
    norm_num [DIST_FLOOR]
  have hd1 : hypot (cB.x - cA.x) (cB.y - cA.y) < DIST_FLOOR := by
    rw [show cB.x - cA.x = 0 by norm_num [cA, cB],
        show cB.y - cA.y = 0 by norm_num [cA, cB], hypot_zero_zero]
    norm_num [DIST_FLOOR]
  have hcfA : calculate_forces [cA, cB] cA = cA := by
    unfold calculate_forces
    rw [List.foldl_cons, forceStep_self, List.foldl_cons, List.foldl_nil,
        forceStep_skip cA (0, 0) cB hd0]
    rfl
  have hcfB : calculate_forces [cA, cB] cB = cB := by
    unfold calculate_forces
    rw [List.foldl_cons, forceStep_skip cB (0, 0) cA hd1, List.foldl_cons,
        List.foldl_nil, forceStep_self]
    rfl
  have hkA : update_kinematics cA = cAstep := by
    norm_num [update_kinematics, cA, cAstep, ELECTRON_MASS, TIME_STEP]
  have hkB : update_kinematics cB = cB := by
    norm_num [update_kinematics, cB]
  have hbA : handle_boundaries cAstep = cAstep := by
    norm_num [handle_boundaries, clampX, clampY, cAstep, max_x, max_y,
      WIDTH, HEIGHT, SCALE]
  have hbB : handle_boundaries cB = cB := by
    norm_num [handle_boundaries, clampX, clampY, cB, max_x, max_y,
      WIDTH, HEIGHT, SCALE]
  have hstepA : update_body [cA, cB] cA = cAstep := by
    simp only [update_body]
    rw [hcfA, hkA, hbA]
  have hdx : cB.x - cAstep.x = -(1/2000 : ℝ) := by norm_num [cB, cAstep]
  have hdy : cB.y - cAstep.y = 0 := by norm_num [cB, cAstep]
  have hdist : hypot (cB.x - cAstep.x) (cB.y - cAstep.y) = 1/2000 := by
    rw [hdx, hdy, hypot_axis, abs_neg,
        abs_of_pos (by norm_num : (0:ℝ) < 1/2000)]
  have hnlt : ¬ hypot (cB.x - cAstep.x) (cB.y - cAstep.y) < DIST_FLOOR := by
    rw [hdist]; norm_num [DIST_FLOOR]
  have hid : cAstep.id ≠ cB.id := by norm_num [cAstep, cB]
  have hcf2 : calculate_forces [cAstep, cB] cB =
      { cB with force_x := FX, force_y := 0 } := by
    unfold calculate_forces
    rw [List.foldl_cons, forceStep_go cB (0, 0) cAstep hid hnlt,
        List.foldl_cons, List.foldl_nil, forceStep_self, hdist, hdx, hdy]
    norm_num [FX]
  have huk2 : update_kinematics { cB with force_x := FX, force_y := 0 } =
      ⟨1, 1/100 + FX / ELECTRON_MASS * TIME_STEP * TIME_STEP, 1/25,
        FX / ELECTRON_MASS * TIME_STEP, 0, FX, 0⟩ := by
    norm_num [update_kinematics, cB]
  have hx0 : (0:ℝ) < 1/100 + FX / ELECTRON_MASS * TIME_STEP * TIME_STEP := by
    norm_num [FX, K_CONST, ELECTRON_CHARGE, ELECTRON_MASS, TIME_STEP]
  have hx1 : 1/100 + FX / ELECTRON_MASS * TIME_STEP * TIME_STEP < max_x := by
    norm_num [FX, K_CONST, ELECTRON_CHARGE, ELECTRON_MASS, TIME_STEP,
      max_x, WIDTH, SCALE]
  have hvxneg : FX / ELECTRON_MASS * TIME_STEP < 0 := by
    norm_num [FX, K_CONST, ELECTRON_CHARGE, ELECTRON_MASS, TIME_STEP]
  have hvx2 : (update_body [cAstep, cB] cB).vx = FX / ELECTRON_MASS * TIME_STEP := by
    simp only [update_body]
    rw [hcf2, huk2]
    exact clamp_vx_interior _ hx0 hx1
  have hseq : advance_step [cA, cB] = [cAstep, update_body [cAstep, cB] cB] := by
    have h1 : advance_step [cA, cB] =
        [update_body [cA, cB] cA,
         update_body [update_body [cA, cB] cA, cB] cB] := by
      simp [advance_step, run_round]
    rw [h1, hstepA]
  have hsnap : advance_step_snapshot [cA, cB] = [cAstep, cB] := by
    simp only [advance_step_snapshot, List.map_cons, List.map_nil]
    rw [hcfA, hcfB, hkA, hbA, hkB, hbB]
  intro h
  rw [hseq, hsnap] at h
  injection h with hA hT
  injection hT with h2 hN
  rw [h2] at hvx2
  rw [show cB.vx = 0 from rfl] at hvx2
  exact absurd hvx2.symm (ne_of_lt hvxneg)

/-- C1 amended: within one advance, the electrons run strictly one after
another in list order; each electron's force computation reads the current
shared state, in which earlier electrons have already been integrated and
boundary-corrected this step, and later electrons have not.  In particular
for two electrons, the second one's whole update runs against the first
one's already-advanced state. -/
theorem c1_sequential_step :
    (∀ (done pending : List Electron) (e : Electron),
        run_round done (e :: pending) =
          run_round (done ++ [update_body (done ++ e :: pending) e]) pending) ∧
    (∀ a b : Electron, advance_step [a, b] =
        [update_body [a, b] a, update_body [update_body [a, b] a, b] b]) := by
  constructor
  · intro done pending e
    rw [run_round]
  · intro a b
    simp [advance_step, run_round]

end ESim
